import Mathlib

/-!
Verification development for the MediaScribe per-segment visual pipeline.

The definitions below are a shallow embedding of the Python sources:

* `src/visual_processor.py` — frame sampling (`extract_frames_from_video`,
  uniform-sampling branch, the configured mode), batch image encoding
  (`image_to_embedding`), cosine similarity (`calculate_similarity`) and
  greedy near-duplicate reduction (`remove_duplicate_images`);
* `src/advanced_processor.py` — the per-segment pipeline
  (`_process_single_segment_visual`, `_select_key_images_for_segment`,
  `_create_fallback_visual_result`) and the concurrent orchestrator
  (`process_video_with_concurrent_visual`).

Numeric values that are Python floats are modelled with exact arithmetic:
stored quantities (timestamps, durations, embedding coordinates) as `ℚ`,
and derived similarity values (which involve square roots) as `ℝ`.
External effects are passed explicitly: the video decoder is a read oracle,
the embedding backend's reply is an `Except` value, and a thread-pool task
outcome is an `Except` value; `as_completed` iteration order is an explicit
list of indices.  Python's `int(x)` truncation toward zero is `ratPyInt`.
-/

namespace MediaScribe

/-- Truncation of a rational toward zero, the behaviour of Python's `int()`
on a float. -/
def ratPyInt (q : ℚ) : ℤ :=
  if 0 ≤ q then ⌊q⌋ else ⌈q⌉

/-! ### Cosine similarity (`VisualProcessor.calculate_similarity`) -/

/-- Dot product of two vectors given as rational coordinate lists, as computed
by `cosine_similarity` on two 1×n arrays (coordinatewise product, summed;
trailing coordinates of the longer vector are ignored by `zipWith`, matching
numpy broadcasting only on equal shapes — all callers pass equal-length
vectors from one encoder). -/
def dotList (v w : List ℚ) : ℚ :=
  (List.zipWith (· * ·) v w).sum

/-- Model of `VisualProcessor.calculate_similarity`: cosine similarity
`⟨v,w⟩ / (‖v‖‖w‖)` of two embedding vectors.  Lean's convention `x / 0 = 0`
matches sklearn's handling of zero-norm rows (their similarity is 0). -/
noncomputable def calculate_similarity (v w : List ℚ) : ℝ :=
  ((dotList v w : ℚ) : ℝ) /
    (Real.sqrt ((dotList v v : ℚ) : ℝ) * Real.sqrt ((dotList w w : ℚ) : ℝ))

theorem dotList_comm (v w : List ℚ) : dotList v w = dotList w v := by
  unfold dotList
  congr 1
  induction v generalizing w with
  | nil => cases w <;> rfl
  | cons a v ih =>
    cases w with
    | nil => rfl
    | cons b w => simp [List.zipWith, ih, mul_comm]

theorem calculate_similarity_comm (v w : List ℚ) :
    calculate_similarity v w = calculate_similarity w v := by
  unfold calculate_similarity
  rw [dotList_comm v w, mul_comm]

theorem dotList_self_nonneg (v : List ℚ) : 0 ≤ dotList v v := by
  induction v with
  | nil => simp [dotList]
  | cons a v ih =>
    have ha : 0 ≤ a * a := mul_self_nonneg a
    simpa [dotList, List.zipWith] using add_nonneg ha ih

/-- Cauchy–Schwarz for `dotList`, proved by induction on the coordinate
lists. -/
theorem dotList_sq_le (v w : List ℚ) :
    dotList v w ^ 2 ≤ dotList v v * dotList w w := by
  induction v generalizing w with
  | nil => simp [dotList]
  | cons a v ih =>
    cases w with
    | nil => simp [dotList]
    | cons b w =>
      have hA : 0 ≤ dotList v v := dotList_self_nonneg v
      have hB : 0 ≤ dotList w w := dotList_self_nonneg w
      have hd : dotList v w ^ 2 ≤ dotList v v * dotList w w := ih w
      have expand : dotList (a :: v) (b :: w) = a * b + dotList v w := by
        simp [dotList, List.zipWith]
      have expand1 : dotList (a :: v) (a :: v) = a * a + dotList v v := by
        simp [dotList, List.zipWith]
      have expand2 : dotList (b :: w) (b :: w) = b * b + dotList w w := by
        simp [dotList, List.zipWith]
      rw [expand, expand1, expand2]
      set A := dotList v v with hAdef
      set B := dotList w w with hBdef
      set d := dotList v w with hddef
      rcases eq_or_lt_of_le hB with hB0 | hBpos
      · have hd0 : d = 0 := by
          have h1 : d ^ 2 ≤ 0 := by rw [← hB0] at hd; simpa using hd
          have := sq_nonneg d
          have h2 : d ^ 2 = 0 := le_antisymm h1 this
          exact pow_eq_zero_iff (n := 2) (by norm_num) |>.mp h2
        rw [hd0, ← hB0]
        nlinarith [mul_nonneg hA (sq_nonneg b)]
      · nlinarith [sq_nonneg (a * B - b * d),
          mul_nonneg (add_nonneg (sq_nonneg b) hB) (sub_nonneg.mpr hd), hBpos]

/-- Cosine similarity never exceeds 1 (with the `x / 0 = 0` convention for
degenerate vectors). -/
theorem calculate_similarity_le_one (v w : List ℚ) :
    calculate_similarity v w ≤ 1 := by
  unfold calculate_similarity
  set a : ℝ := ((dotList v w : ℚ) : ℝ) with ha
  set nv : ℝ := Real.sqrt ((dotList v v : ℚ) : ℝ)
  set nw : ℝ := Real.sqrt ((dotList w w : ℚ) : ℝ)
  have hnv : 0 ≤ nv := Real.sqrt_nonneg _
  have hnw : 0 ≤ nw := Real.sqrt_nonneg _
  rcases eq_or_lt_of_le (mul_nonneg hnv hnw) with h0 | hpos
  · rw [← h0, div_zero]
    exact zero_le_one
  · have hcs : a ≤ nv * nw := by
      have h1 : a ^ 2 ≤ ((dotList v v : ℚ) : ℝ) * ((dotList w w : ℚ) : ℝ) := by
        have := dotList_sq_le v w
        have : ((dotList v w ^ 2 : ℚ) : ℝ) ≤ ((dotList v v * dotList w w : ℚ) : ℝ) := by
          exact_mod_cast this
        push_cast at this
        simpa [ha] using this
      have h2 : ((dotList v v : ℚ) : ℝ) * ((dotList w w : ℚ) : ℝ) = (nv * nw) ^ 2 := by
        have hv' : (0 : ℝ) ≤ ((dotList v v : ℚ) : ℝ) := by exact_mod_cast dotList_self_nonneg v
        have hw' : (0 : ℝ) ≤ ((dotList w w : ℚ) : ℝ) := by exact_mod_cast dotList_self_nonneg w
        rw [mul_pow, Real.sq_sqrt hv', Real.sq_sqrt hw']
      have h3 : a ^ 2 ≤ (nv * nw) ^ 2 := by rw [← h2]; exact h1
      calc a ≤ |a| := le_abs_self a
        _ ≤ |nv * nw| := by
            rw [← Real.sqrt_sq_eq_abs a, ← Real.sqrt_sq_eq_abs (nv * nw)]
            exact Real.sqrt_le_sqrt h3
        _ = nv * nw := abs_of_pos hpos
    exact (div_le_one hpos).mpr hcs

/-! ### Near-duplicate reduction (`VisualProcessor.remove_duplicate_images`) -/

/-- Evaluation helper for concrete cosine similarities whose norms are
rational. -/
theorem calculate_similarity_eval (v w : List ℚ) (a b c : ℚ)
    (hvw : dotList v w = a) (hvv : dotList v v = b ^ 2) (hww : dotList w w = c ^ 2)
    (hb : 0 ≤ b) (hc : 0 ≤ c) :
    calculate_similarity v w = (a : ℝ) / ((b : ℝ) * (c : ℝ)) := by
  unfold calculate_similarity
  rw [hvw, hvv, hww]
  have h1 : Real.sqrt ((((b : ℚ) ^ 2 : ℚ)) : ℝ) = (b : ℝ) := by
    push_cast
    rw [Real.sqrt_sq (by exact_mod_cast hb)]
  have h2 : Real.sqrt ((((c : ℚ) ^ 2 : ℚ)) : ℝ) = (c : ℝ) := by
    push_cast
    rw [Real.sqrt_sq (by exact_mod_cast hc)]
  rw [h1, h2]

open Classical in
/-- Model of the main loop of `remove_duplicate_images`: scan the input in
original order carrying the kept list; an item is dropped when some already
kept item has cosine similarity strictly above the threshold, and appended
to the kept list otherwise. -/
noncomputable def reduceAux (threshold : ℝ) (kept : List (String × List ℚ)) :
    List (String × List ℚ) → List (String × List ℚ)
  | [] => kept
  | x :: rest =>
    if ∃ k ∈ kept, calculate_similarity x.2 k.2 > threshold then
      reduceAux threshold kept rest
    else
      reduceAux threshold (kept ++ [x]) rest

/-- Kept `(path, embedding)` pairs of the reduction loop, starting from an
empty kept list (the loop's `keep_indices`, materialised as pairs). -/
noncomputable def keptPairs (threshold : ℝ) (embeddings : List (String × List ℚ)) :
    List (String × List ℚ) :=
  reduceAux threshold [] embeddings

/-- Model of `VisualProcessor.remove_duplicate_images`: inputs of length at
most 1 are returned unchanged (early return in the source); otherwise the
greedy loop runs and the kept paths are returned in kept order. -/
noncomputable def remove_duplicate_images (threshold : ℝ)
    (embeddings : List (String × List ℚ)) : List String :=
  if embeddings.length ≤ 1 then embeddings.map Prod.fst
  else (keptPairs threshold embeddings).map Prod.fst

theorem reduceAux_nil (t : ℝ) (K : List (String × List ℚ)) :
    reduceAux t K [] = K := by
  rw [reduceAux]

open Classical in
theorem reduceAux_cons (t : ℝ) (K : List (String × List ℚ))
    (x : String × List ℚ) (rest : List (String × List ℚ)) :
    reduceAux t K (x :: rest) =
      if ∃ k ∈ K, calculate_similarity x.2 k.2 > t then reduceAux t K rest
      else reduceAux t (K ++ [x]) rest := by
  rw [reduceAux]

/-- Accumulated kept lists are internally non-duplicate: no later kept item is
similar above the threshold to an earlier kept item. -/
def SatKept (t : ℝ) (K : List (String × List ℚ)) : Prop :=
  List.Pairwise (fun p q => ¬ calculate_similarity q.2 p.2 > t) K

theorem reduceAux_sat (t : ℝ) (l K : List (String × List ℚ))
    (hK : SatKept t K) : SatKept t (reduceAux t K l) := by
  induction l generalizing K with
  | nil => rw [reduceAux_nil]; exact hK
  | cons x rest ih =>
    rw [reduceAux_cons]
    by_cases h : ∃ k ∈ K, calculate_similarity x.2 k.2 > t
    · rw [if_pos h]; exact ih K hK
    · rw [if_neg h]
      refine ih (K ++ [x]) ?_
      push_neg at h
      refine List.pairwise_append.mpr ⟨hK, List.pairwise_singleton _ _, ?_⟩
      intro a ha b hb
      rcases List.mem_singleton.mp hb with rfl
      exact not_lt.mpr (h a ha)

theorem reduceAux_eq_append (t : ℝ) (l K : List (String × List ℚ))
    (hK : ∀ x ∈ l, ∀ k ∈ K, ¬ calculate_similarity x.2 k.2 > t)
    (hl : SatKept t l) : reduceAux t K l = K ++ l := by
  induction l generalizing K with
  | nil => rw [reduceAux_nil]; simp
  | cons x rest ih =>
    rw [reduceAux_cons, if_neg]
    · have hrest : ∀ y ∈ rest, ∀ k ∈ K ++ [x], ¬ calculate_similarity y.2 k.2 > t := by
        intro y hy k hk
        rcases List.mem_append.mp hk with hk | hk
        · exact hK y (List.mem_cons_of_mem _ hy) k hk
        · rcases List.mem_singleton.mp hk with rfl
          exact (List.pairwise_cons.mp hl).1 y hy
      rw [ih (K ++ [x]) hrest (List.pairwise_cons.mp hl).2]
      simp
    · rintro ⟨k, hk, hsim⟩
      exact hK x (List.mem_cons_self _ _) k hk hsim

theorem reduceAux_sublist (t : ℝ) (l K : List (String × List ℚ)) :
    (reduceAux t K l).Sublist (K ++ l) := by
  induction l generalizing K with
  | nil => rw [reduceAux_nil]; simp
  | cons x rest ih =>
    rw [reduceAux_cons]
    by_cases h : ∃ k ∈ K, calculate_similarity x.2 k.2 > t
    · rw [if_pos h]
      exact (ih K).trans
        ((List.append_sublist_append_left K).mpr (List.sublist_cons_self x rest))
    · rw [if_neg h]
      have := ih (K ++ [x])
      rwa [List.append_assoc, List.singleton_append] at this

theorem remove_duplicate_images_eq_map_fst (t : ℝ)
    (l : List (String × List ℚ)) :
    remove_duplicate_images t l = (keptPairs t l).map Prod.fst := by
  unfold remove_duplicate_images
  by_cases h : l.length ≤ 1
  · rw [if_pos h]
    match l with
    | [] => rw [keptPairs, reduceAux_nil]
    | [x] =>
      rw [keptPairs, reduceAux_cons, if_neg (by simp), reduceAux_nil]
      simp
    | x :: y :: rest => simp at h
  · rw [if_neg h]

theorem satKept_keptPairs (t : ℝ) (l : List (String × List ℚ)) :
    SatKept t (keptPairs t l) :=
  reduceAux_sat t l [] List.Pairwise.nil

theorem keptPairs_idem (t : ℝ) (l : List (String × List ℚ)) :
    keptPairs t (keptPairs t l) = keptPairs t l := by
  have h1 : ∀ x ∈ keptPairs t l, ∀ k ∈ ([] : List (String × List ℚ)),
      ¬ calculate_similarity x.2 k.2 > t := by
    intro x _ k hk
    simp at hk
  rw [keptPairs, reduceAux_eq_append t (keptPairs t l) [] h1 (satKept_keptPairs t l)]
  simp

/-! ### Claims C4, C5, C6 over the near-duplicate reducer -/

open Classical in
/-- C4: the Near-Duplicate Reducer is greedy, order-sensitive and
first-seen-wins: processing inputs in original order, an item is discarded
iff its cosine similarity to some already-kept item exceeds the threshold,
otherwise it is appended to the kept list; the output preserves input
relative order; for `[A, A', B]` with `sim(A,A') > threshold` and
`sim(A,B), sim(A',B) ≤ threshold`, the output is `[A, B]`. -/
theorem reducer_greedy_first_seen_wins :
    (∀ (t : ℝ) (K : List (String × List ℚ)) (x : String × List ℚ)
        (rest : List (String × List ℚ)),
      reduceAux t K (x :: rest) =
        if ∃ k ∈ K, calculate_similarity x.2 k.2 > t then reduceAux t K rest
        else reduceAux t (K ++ [x]) rest) ∧
    (∀ (t : ℝ) (l : List (String × List ℚ)),
      (remove_duplicate_images t l).Sublist (l.map Prod.fst)) ∧
    (∀ (t : ℝ) (a a' b : String) (ea ea' eb : List ℚ),
      calculate_similarity ea ea' > t →
      calculate_similarity ea eb ≤ t →
      calculate_similarity ea' eb ≤ t →
      remove_duplicate_images t [(a, ea), (a', ea'), (b, eb)] = [a, b]) := by
  refine ⟨fun t K x rest => reduceAux_cons t K x rest, ?_, ?_⟩
  · intro t l
    rw [remove_duplicate_images_eq_map_fst]
    have hsub : (keptPairs t l).Sublist l := by
      simpa using reduceAux_sublist t l []
    exact hsub.map Prod.fst
  · intro t a a' b ea ea' eb h1 h2 h3
    have c2 : ∃ k ∈ [] ++ [(a, ea)], calculate_similarity ea' k.2 > t := by
      refine ⟨(a, ea), by simp, ?_⟩
      show calculate_similarity ea' ea > t
      rwa [calculate_similarity_comm ea' ea]
    have c3 : ¬ ∃ k ∈ [] ++ [(a, ea)], calculate_similarity eb k.2 > t := by
      rintro ⟨k, hk, hsim⟩
      simp at hk
      subst hk
      have hsim' : calculate_similarity eb ea > t := hsim
      rw [calculate_similarity_comm eb ea] at hsim'
      exact absurd hsim' (not_lt.mpr h2)
    rw [remove_duplicate_images_eq_map_fst, keptPairs]
    simp only [reduceAux_cons, reduceAux_nil]
    rw [if_neg (by simp), if_pos c2, if_neg c3]
    simp

/-- C4 witness: the first-seen-wins instance realised at concrete vectors
`A = (3,4)`, `A' = (4,3)`, `B = (-4,3)` with the segment threshold `0.85`:
`sim(A,A') = 24/25 > 0.85`, `sim(A,B) = 0`, `sim(A',B) = -7/25`. -/
theorem reducer_greedy_first_seen_wins_witness :
    remove_duplicate_images 0.85
      [("A", [3, 4]), ("Ap", [4, 3]), ("B", [-4, 3])] = ["A", "B"] := by
  have e1 := calculate_similarity_eval [(3 : ℚ), 4] [4, 3] 24 5 5
    (by norm_num [dotList]) (by norm_num [dotList]) (by norm_num [dotList])
    (by norm_num) (by norm_num)
  have e2 := calculate_similarity_eval [(3 : ℚ), 4] [-4, 3] 0 5 5
    (by norm_num [dotList]) (by norm_num [dotList]) (by norm_num [dotList])
    (by norm_num) (by norm_num)
  have e3 := calculate_similarity_eval [(4 : ℚ), 3] [-4, 3] (-7) 5 5
    (by norm_num [dotList]) (by norm_num [dotList]) (by norm_num [dotList])
    (by norm_num) (by norm_num)
  exact reducer_greedy_first_seen_wins.2.2 0.85 "A" "Ap" "B" _ _ _
    (by rw [e1]; norm_num) (by rw [e2]; norm_num) (by rw [e3]; norm_num)

/-- C5 (amended): with threshold 1.0 the reducer keeps every input item —
discarding requires similarity strictly greater than the threshold, and
cosine similarity never exceeds 1, so even exact-identical vectors are all
kept and the output is the full path list in input order. -/
theorem reducer_threshold_one_keeps_all (l : List (String × List ℚ)) :
    remove_duplicate_images 1 l = l.map Prod.fst := by
  have hall : ∀ p q : String × List ℚ,
      ¬ calculate_similarity q.2 p.2 > (1 : ℝ) := fun p q =>
    not_lt.mpr (calculate_similarity_le_one q.2 p.2)
  have hsat : SatKept 1 l := by
    induction l with
    | nil => exact List.Pairwise.nil
    | cons x rest ih => exact List.Pairwise.cons (fun b _ => hall x b) ih
  have key := reduceAux_eq_append 1 l [] (by intro x _ k hk; simp at hk) hsat
  rw [remove_duplicate_images_eq_map_fst, keptPairs, key]
  simp

/-- C5 counterexample: at threshold 1.0 an input containing two identical
vectors does NOT lose the later copy — both `"a"` and `"b"` are kept, the
claimed merge of exact-identical vectors does not happen (the comparison is
strict and `sim([1],[1]) = 1` is not greater than 1). -/
theorem reducer_threshold_one_identical_not_merged :
    remove_duplicate_images 1 [("a", [1]), ("b", [1])] = ["a", "b"] ∧
    remove_duplicate_images 1 [("a", [1]), ("b", [1])] ≠ ["a"] := by
  have e1 := calculate_similarity_eval [(1 : ℚ)] [1] 1 1 1
    (by norm_num [dotList]) (by norm_num [dotList]) (by norm_num [dotList])
    (by norm_num) (by norm_num)
  have c2 : ¬ ∃ k ∈ [] ++ [("a", [(1 : ℚ)])],
      calculate_similarity [(1 : ℚ)] k.2 > (1 : ℝ) := by
    rintro ⟨k, hk, hsim⟩
    simp at hk
    subst hk
    have hsim' : calculate_similarity [(1 : ℚ)] [1] > (1 : ℝ) := hsim
    rw [e1] at hsim'
    norm_num at hsim'
  have h : remove_duplicate_images 1 [("a", [1]), ("b", [1])] = ["a", "b"] := by
    rw [remove_duplicate_images_eq_map_fst, keptPairs]
    simp only [reduceAux_cons, reduceAux_nil]
    rw [if_neg (by simp), if_neg c2]
    simp
  exact ⟨h, by rw [h]; simp⟩

/-- C6: the reducer is idempotent — reducing the `(identifier, embedding)`
pairs it already kept, with the same threshold, returns the same kept list
unchanged; and inputs of length 0 or 1 are returned unchanged. -/
theorem reducer_idempotent (t : ℝ) (l : List (String × List ℚ)) :
    remove_duplicate_images t (keptPairs t l) = remove_duplicate_images t l ∧
    (l.length ≤ 1 → remove_duplicate_images t l = l.map Prod.fst) := by
  constructor
  · rw [remove_duplicate_images_eq_map_fst, remove_duplicate_images_eq_map_fst,
      keptPairs_idem]
  · intro h
    rw [remove_duplicate_images, if_pos h]

/-- C6 witness: idempotence and the unchanged singleton at a concrete input
and threshold. -/
theorem reducer_idempotent_witness :
    remove_duplicate_images 0 (keptPairs 0 [("a", [1])]) =
      remove_duplicate_images 0 [("a", [1])] ∧
    remove_duplicate_images 0 [("a", [1])] = ["a"] := by
  refine ⟨(reducer_idempotent 0 [("a", [1])]).1, ?_⟩
  have := (reducer_idempotent 0 [("a", [1])]).2 (by simp)
  simpa using this

/-! ### Frame sampling (`VisualProcessor.extract_frames_from_video`,
uniform-sampling branch — the mode selected by
`CONFIG['image']['uniform_sampling'] = True`) -/

/-- Read-only view of an opened video: decoder frame rate, total frame count
and a deterministic read oracle telling whether `cap.read()` succeeds after
seeking to a given frame position. -/
structure Video where
  video_fps : ℚ
  total_frames : ℕ
  readOk : ℤ → Bool

/-- Duration of the whole video, `total_frames / video_fps`. -/
def video_duration (v : Video) : ℚ :=
  (v.total_frames : ℚ) / v.video_fps

/-- Actual processing duration: `min(duration, video_duration - start_time)`
when a duration is supplied, else the remaining length.  Python's
`if duration:` is falsy for both `None` and `0`. -/
def actual_duration (v : Video) (start_time : ℚ) (duration : Option ℚ) : ℚ :=
  match duration with
  | some d => if d ≠ 0 then min d (video_duration v - start_time)
              else video_duration v - start_time
  | none => video_duration v - start_time

/-- Record for one extracted frame (`path` omitted: it is derived from
`index` and `timestamp`). -/
structure FrameInfo where
  timestamp : ℚ
  frame_number : ℤ
  index : ℕ
deriving DecidableEq

/-- Attempted frame count of the uniform-sampling branch:
`min(self.max_frames_per_segment, int(actual_duration))`. -/
def uniform_max_frames (v : Video) (start_time : ℚ) (duration : Option ℚ)
    (max_frames_per_segment : ℕ) : ℤ :=
  min (max_frames_per_segment : ℤ) (ratPyInt (actual_duration v start_time duration))

/-- Model of `extract_frames_from_video` in uniform-sampling mode: when the
attempted frame count is non-positive, return no frames; otherwise sample
`max_frames` timestamps `start_time + i * (actual_duration / max_frames)`,
seek to `int(current_time * video_fps)` and keep the frame when the read
succeeds (a failed read is skipped, not an error). -/
def extract_frames_from_video (v : Video) (start_time : ℚ) (duration : Option ℚ)
    (max_frames_per_segment : ℕ) : List FrameInfo :=
  let ad := actual_duration v start_time duration
  let max_frames := uniform_max_frames v start_time duration max_frames_per_segment
  if max_frames ≤ 0 then []
  else
    let time_interval := ad / (max_frames : ℚ)
    (List.range max_frames.toNat).filterMap (fun (i : ℕ) =>
      let current_time := start_time + (i : ℚ) * time_interval
      let frame_number := ratPyInt (current_time * v.video_fps)
      if v.readOk frame_number then
        some ⟨current_time, frame_number, i⟩
      else none)

/-! ### Per-segment pipeline (`AdvancedMediaProcessor`) -/

/-- Transcript segment `{start_time, end_time, text, summary}`. -/
structure Segment where
  start_time : ℚ
  end_time : ℚ
  text : String
  summary : String
deriving DecidableEq

/-- Result dictionary of `VisualProcessor.process_video_frames`; only the
`final_images` entry is consumed by the per-segment pipeline
(`result.get('final_images', [])`). -/
structure VisualProcResult where
  final_images : List String
deriving DecidableEq

/-- Per-segment result dictionary.  `time_range` keeps the two endpoints the
f-string renders; a successful result dictionary has no `error` key, which
reads back as falsy, so it is modelled as `error = false`. -/
structure VisualResult where
  segment_number : ℕ
  time_range : ℚ × ℚ
  duration : ℚ
  text : String
  summary : String
  visual_result : Option VisualProcResult
  key_images : List String
  image_count : ℕ
  error : Bool
deriving DecidableEq

/-- Model of `_create_fallback_visual_result`: Python's `segment_num or 0`
maps both `None` and `0` to `0`. -/
def create_fallback_visual_result (segment : Segment) (segment_num : Option ℕ) :
    VisualResult where
  segment_number := segment_num.getD 0
  time_range := (segment.start_time, segment.end_time)
  duration := segment.end_time - segment.start_time
  text := segment.text
  summary := segment.summary
  visual_result := none
  key_images := []
  image_count := 0
  error := true

/-- Model of `_select_key_images_for_segment`: empty and short lists are
returned whole; longer lists are sampled at indices `0, step, 2*step, ...`
with `step = len // max_images`, each index guarded against the length. -/
def select_key_images_for_segment (image_paths : List String)
    (max_images : ℕ) : List String :=
  if image_paths = [] then []
  else if image_paths.length ≤ max_images then image_paths
  else
    let step := image_paths.length / max_images
    (List.range max_images).filterMap (fun i =>
      if i * step < image_paths.length then image_paths[i * step]? else none)

/-- Model of `_process_single_segment_visual`: the body of the `try` block
(the `process_video_frames` call and everything after it) is abstracted as an
`Except` outcome; an exception takes the `except` path, which returns the
fallback record with this segment's number. -/
def process_single_segment_visual (segment : Segment) (segment_num : ℕ)
    (visual : Except Unit VisualProcResult) : VisualResult :=
  match visual with
  | .ok result =>
    let key_images := select_key_images_for_segment result.final_images 3
    { segment_number := segment_num
      time_range := (segment.start_time, segment.end_time)
      duration := segment.end_time - segment.start_time
      text := segment.text
      summary := segment.summary
      visual_result := some result
      key_images := key_images
      image_count := key_images.length
      error := false }
  | .error _ => create_fallback_visual_result segment (some segment_num)

/-! ### Keyword-argument boundary of the `process_video_frames` call -/

/-- Parameter names in the signature of `VisualProcessor.process_video_frames`
(it has no `**kwargs`). -/
def process_video_frames_param_names : List String :=
  ["video_path", "output_dir", "fps", "start_time", "duration",
   "crop_mode", "crop_ratios", "crop_confidence"]

/-- Keys of the `segment_config` dict built in
`_process_single_segment_visual` and splatted into the call. -/
def segment_config_keys : List String :=
  ["max_frames", "start_time", "duration", "similarity_threshold", "crop_mode"]

/-- Keyword arguments of the call
`process_video_frames(video_path=..., output_dir=..., **segment_config)`. -/
def concurrent_call_kwargs : List String :=
  ["video_path", "output_dir"] ++ segment_config_keys

/-- Python keyword-call boundary: a call whose keyword set is not contained
in the callee's parameter names raises `TypeError` before the body runs. -/
def python_kw_call (accepted passed : List String)
    (body : Except Unit VisualProcResult) : Except Unit VisualProcResult :=
  if passed.all (fun k => accepted.contains k) then body else .error ()

/-- The per-segment pipeline as actually executed: the `try` block first
performs the keyword call into `process_video_frames`. -/
def process_single_segment_visual_run (segment : Segment) (segment_num : ℕ)
    (body : Except Unit VisualProcResult) : VisualResult :=
  process_single_segment_visual segment segment_num
    (python_kw_call process_video_frames_param_names concurrent_call_kwargs body)

/-- Per-segment frame budget computed into `segment_config`:
`min(10, max(3, int(duration / 10)))`. -/
def segment_max_frames (duration : ℚ) : ℤ :=
  min 10 (max 3 (ratPyInt (duration / 10)))

/-! ### Concurrent orchestrator
(`AdvancedMediaProcessor.process_video_with_concurrent_visual`) -/

/-- Value stored for segment `i` when its future completes: the task's
result, or — when the task raised at the dispatch boundary — the fallback
built WITHOUT a segment number (`_create_fallback_visual_result(segment)`). -/
def taskResult (segments : List Segment)
    (outcome : ℕ → Segment → Except Unit VisualResult) (i : ℕ) :
    Option VisualResult :=
  (segments[i]?).map fun seg =>
    match outcome i seg with
    | .ok r => r
    | .error _ => create_fallback_visual_result seg none

/-- Model of the collection loop of `process_video_with_concurrent_visual`:
a pre-sized slot array `[None] * len(segments)` is filled at each segment's
original index as futures complete, in completion order `order`. -/
def process_video_with_concurrent_visual (segments : List Segment)
    (outcome : ℕ → Segment → Except Unit VisualResult) (order : List ℕ) :
    List (Option VisualResult) :=
  order.foldl (fun acc i => acc.set i (taskResult segments outcome i))
    (List.replicate segments.length none)

/-! ### Claim C2: the segment pipeline never raises and falls back -/

/-- C2: on any exception inside the per-segment `try` block (sampling,
cropping, encoding or reduction), `_process_single_segment_visual` returns —
it does not raise (the model is a total function) — the fallback
`SegmentResult` carrying the segment's original text, summary and time
range, with empty `key_images`, `image_count = 0` and the error flag set. -/
theorem segment_pipeline_fallback_on_error (segment : Segment) (n : ℕ) (e : Unit) :
    process_single_segment_visual segment n (.error e) =
      create_fallback_visual_result segment (some n) ∧
    (process_single_segment_visual segment n (.error e)).error = true ∧
    (process_single_segment_visual segment n (.error e)).key_images = [] ∧
    (process_single_segment_visual segment n (.error e)).image_count = 0 ∧
    (process_single_segment_visual segment n (.error e)).text = segment.text ∧
    (process_single_segment_visual segment n (.error e)).summary = segment.summary ∧
    (process_single_segment_visual segment n (.error e)).time_range =
      (segment.start_time, segment.end_time) := by
  exact ⟨rfl, rfl, rfl, rfl, rfl, rfl, rfl⟩

/-! ### Claim C9: key-image selection -/

/-- C9 (amended): key-image selection returns at most 3 images; a list of at
most 3 items is returned whole; a longer list is sampled at indices
`0, step, 2*step` with `step = len / 3`; for lists of length at least 6 the
third sampled index lies beyond position 2, so the selection is spread over
the kept list — but for lengths 4 and 5 the stride is 1 and the selection is
exactly the first 3 elements. -/
theorem select_key_images_spec (l : List String) (dflt : String) :
    (select_key_images_for_segment l 3).length ≤ 3 ∧
    (l.length ≤ 3 → select_key_images_for_segment l 3 = l) ∧
    (3 < l.length → select_key_images_for_segment l 3 =
      [l.getD 0 dflt, l.getD (l.length / 3) dflt,
        l.getD (2 * (l.length / 3)) dflt]) ∧
    (6 ≤ l.length → 2 < 2 * (l.length / 3)) ∧
    (3 < l.length → l.length ≤ 5 → select_key_images_for_segment l 3 = l.take 3) := by
  have hlong : 3 < l.length → select_key_images_for_segment l 3 =
      [l.getD 0 dflt, l.getD (l.length / 3) dflt,
        l.getD (2 * (l.length / 3)) dflt] := by
    intro h
    have hne : l ≠ [] := by
      intro he
      rw [he] at h
      simp at h
    have h0 : 0 * (l.length / 3) < l.length := by omega
    have h1 : 1 * (l.length / 3) < l.length := by omega
    have h2 : 2 * (l.length / 3) < l.length := by omega
    rw [select_key_images_for_segment, if_neg hne, if_neg (by omega)]
    show (List.range 3).filterMap _ = _
    rw [show List.range 3 = [0, 1, 2] from rfl]
    simp only [List.filterMap_cons, List.filterMap_nil]
    rw [if_pos h0, if_pos h1, if_pos h2,
      List.getElem?_eq_getElem h0, List.getElem?_eq_getElem h1,
      List.getElem?_eq_getElem h2]
    simp only [Nat.zero_mul, Nat.one_mul]
    rw [List.getD_eq_getElem l dflt (by omega : 0 < l.length),
      List.getD_eq_getElem l dflt (by omega : l.length / 3 < l.length),
      List.getD_eq_getElem l dflt h2]
  refine ⟨?_, ?_, hlong, ?_, ?_⟩
  · by_cases he : l = []
    · rw [select_key_images_for_segment, if_pos he]
      simp
    · by_cases hs : l.length ≤ 3
      · rw [select_key_images_for_segment, if_neg he, if_pos hs]
        exact hs
      · rw [select_key_images_for_segment, if_neg he, if_neg hs]
        calc ((List.range 3).filterMap _).length ≤ (List.range 3).length :=
              List.length_filterMap_le _ _
          _ = 3 := by simp
  · intro hs
    by_cases he : l = []
    · rw [select_key_images_for_segment, if_pos he, he]
    · rw [select_key_images_for_segment, if_neg he, if_pos hs]
  · intro h
    omega
  · intro h3 h5
    have hstep : l.length / 3 = 1 := by omega
    rw [hlong h3, hstep]
    match l, h3 with
    | a :: b :: c :: d :: rest, _ => simp [List.getD]

/-- C9 witness: a 7-element kept list is sampled at indices 0, 2, 4 (stride
`7 / 3 = 2`), spreading the selection past the first three elements. -/
theorem select_key_images_spec_witness :
    select_key_images_for_segment ["a", "b", "c", "d", "e", "f", "g"] 3 =
      ["a", "c", "e"] ∧ 2 < 2 * (7 / 3) := by
  have h := (select_key_images_spec ["a", "b", "c", "d", "e", "f", "g"] "").2.2.1
    (by norm_num)
  refine ⟨?_, by norm_num⟩
  rw [h]
  rfl

/-- C9 counterexample: for a kept list of 5 images the stride `5 / 3 = 1`
makes the selection exactly the first 3 elements, contradicting the claim
that the selected images are spread rather than being the first 3. -/
theorem select_key_images_first_three_counterexample :
    select_key_images_for_segment ["a", "b", "c", "d", "e"] 3 =
      (["a", "b", "c", "d", "e"] : List String).take 3 := by
  rfl

/-! ### Claim C1: orchestrator result placement -/

theorem foldl_set_length {α : Type} (f : ℕ → Option α) (order : List ℕ)
    (acc : List (Option α)) :
    (order.foldl (fun a j => a.set j (f j)) acc).length = acc.length := by
  induction order generalizing acc with
  | nil => rfl
  | cons j rest ih => simp [List.foldl_cons, ih, List.length_set]

theorem foldl_set_getElem? {α : Type} (f : ℕ → Option α) (order : List ℕ)
    (acc : List (Option α)) (i : ℕ) :
    (order.foldl (fun a j => a.set j (f j)) acc)[i]? =
      if i ∈ order ∧ i < acc.length then some (f i) else acc[i]? := by
  induction order generalizing acc with
  | nil => simp
  | cons j rest ih =>
    rw [List.foldl_cons, ih]
    simp only [List.length_set, List.mem_cons]
    by_cases hmem : i ∈ rest
    · by_cases hlen : i < acc.length
      · rw [if_pos ⟨hmem, hlen⟩, if_pos ⟨Or.inr hmem, hlen⟩]
      · rw [if_neg (by tauto), if_neg (by tauto)]
        have h1 : acc[i]? = none := List.getElem?_eq_none (by omega)
        have h2 : (acc.set j (f j))[i]? = none := by
          rw [List.getElem?_eq_none]
          simp only [List.length_set]
          omega
        rw [h2, h1]
    · by_cases hij : i = j
      · subst hij
        by_cases hlen : i < acc.length
        · rw [if_neg (by tauto), if_pos ⟨Or.inl rfl, hlen⟩,
            List.getElem?_set_eq_of_lt (f i) hlen]
        · rw [if_neg (by tauto), if_neg (by tauto)]
          have h1 : acc[i]? = none := List.getElem?_eq_none (by omega)
          have h2 : (acc.set i (f i))[i]? = none := by
            rw [List.getElem?_eq_none]
            simp only [List.length_set]
            omega
          rw [h2, h1]
      · rw [if_neg (by tauto)]
        by_cases hlen : i < acc.length
        · rw [if_neg (by tauto), List.getElem?_set_ne (fun h => hij h.symm)]
        · rw [if_neg (by tauto), List.getElem?_set_ne (fun h => hij h.symm)]

open Classical in
/-- C1 (amended): the Concurrent Orchestrator fills a pre-sized slot array at
each segment's original index, so for every completion order that is a
permutation of the segment indices the final array is the same: it has one
entry per input segment, and the entry at index `i` is the segment's task
result — with `segment_number = i+1` whenever the task returned a pipeline
result built with segment number `i+1` — while a task that raised at the
dispatch boundary leaves the fallback whose `segment_number` is 0, not
`i+1`. -/
theorem orchestrator_indexed_results (segments : List Segment)
    (outcome : ℕ → Segment → Except Unit VisualResult) (order : List ℕ)
    (h : order.Perm (List.range segments.length)) :
    process_video_with_concurrent_visual segments outcome order =
      (List.range segments.length).map (taskResult segments outcome) ∧
    (∀ i seg vres, segments[i]? = some seg →
      outcome i seg = .ok (process_single_segment_visual seg (i + 1) vres) →
      ((process_video_with_concurrent_visual segments outcome order)[i]?).map
        (Option.map VisualResult.segment_number) = some (some (i + 1))) := by
  have key : process_video_with_concurrent_visual segments outcome order =
      (List.range segments.length).map (taskResult segments outcome) := by
    apply List.ext_getElem?
    intro i
    rw [process_video_with_concurrent_visual, foldl_set_getElem?]
    have hmem : i ∈ order ↔ i < segments.length := by
      rw [h.mem_iff, List.mem_range]
    by_cases hi : i < segments.length
    · rw [if_pos (by simp [hmem.mpr hi, hi]),
        List.getElem?_map, List.getElem?_range hi]
      rfl
    · rw [if_neg (by simp [hi]), List.getElem?_eq_none (by simpa using hi),
        List.getElem?_eq_none (by simpa using hi)]
  refine ⟨key, ?_⟩
  intro i seg vres hseg hout
  have hi : i < segments.length := by
    by_contra hge
    rw [List.getElem?_eq_none (by omega)] at hseg
    exact Option.noConfusion hseg
  rw [key, List.getElem?_map, List.getElem?_range hi]
  simp only [taskResult, Option.map_some']
  rw [hseg]
  simp only [Option.map_some']
  rw [hout]
  cases vres with
  | ok r => rfl
  | error e => rfl

/-- C1 witness: a single-segment batch whose task returns normally (with the
inner fallback produced inside the pipeline) yields the slot array `[some r]`
with `r.segment_number = 1`. -/
theorem orchestrator_indexed_results_witness :
    process_video_with_concurrent_visual [⟨0, 10, "t", "s"⟩]
        (fun i seg => .ok (process_single_segment_visual seg (i + 1) (.error ())))
        [0] =
      (List.range 1).map (taskResult [⟨0, 10, "t", "s"⟩]
        (fun i seg => .ok (process_single_segment_visual seg (i + 1) (.error ())))) ∧
    ((process_video_with_concurrent_visual [⟨0, 10, "t", "s"⟩]
        (fun i seg => .ok (process_single_segment_visual seg (i + 1) (.error ())))
        [0])[0]?).map (Option.map VisualResult.segment_number) = some (some 1) := by
  have hperm : ([0] : List ℕ).Perm
      (List.range ([⟨0, 10, "t", "s"⟩] : List Segment).length) := by
    rw [show List.range ([⟨0, 10, "t", "s"⟩] : List Segment).length = [0] from rfl]
  have h := orchestrator_indexed_results [⟨0, 10, "t", "s"⟩]
    (fun i seg => .ok (process_single_segment_visual seg (i + 1) (.error ())))
    [0] hperm
  exact ⟨h.1, h.2 0 ⟨0, 10, "t", "s"⟩ (.error ()) rfl rfl⟩

/-- C1 counterexample: a segment whose task raises at the dispatch boundary
is replaced by the no-number fallback, whose `segment_number` is 0, not
`i + 1 = 1` as the claim states. -/
theorem orchestrator_dispatch_fallback_number_zero :
    ((process_video_with_concurrent_visual [⟨0, 10, "t", "s"⟩]
        (fun _ _ => .error ()) [0]).map
      (Option.map VisualResult.segment_number)) = [some 0] ∧
    ((process_video_with_concurrent_visual [⟨0, 10, "t", "s"⟩]
        (fun _ _ => .error ()) [0]).map
      (Option.map VisualResult.segment_number)) ≠ [some 1] := by
  constructor
  · rfl
  · intro hcontra
    have : (some 0 : Option ℕ) = some 1 := by
      have h0 : ((process_video_with_concurrent_visual [⟨0, 10, "t", "s"⟩]
          (fun _ _ => .error ()) [0]).map
        (Option.map VisualResult.segment_number)) = [some 0] := rfl
      rw [h0] at hcontra
      exact List.head_eq_of_cons_eq hcontra
    simp at this

theorem length_filterMap_some {α β : Type} (g : α → β) (l : List α) :
    (l.filterMap (fun a => some (g a))).length = l.length := by
  induction l with
  | nil => rfl
  | cons a t ih => simp [List.filterMap_cons, ih]

theorem extract_frames_length_all_reads (v : Video) (start_time : ℚ)
    (duration : Option ℚ) (c : ℕ) (hread : ∀ k, v.readOk k = true) :
    (extract_frames_from_video v start_time duration c).length =
      (uniform_max_frames v start_time duration c).toNat := by
  simp only [extract_frames_from_video]
  by_cases h : uniform_max_frames v start_time duration c ≤ 0
  · rw [if_pos h]
    simp only [List.length_nil]
    omega
  · rw [if_neg h]
    simp only [hread, if_true]
    rw [length_filterMap_some, List.length_range]

/-! ### Claim C3: the frame budget and the broken keyword call -/

/-- C3 (code bug): for the segment `{start: 0, end: 20}` the pipeline indeed
computes the budget `clamp(duration/10, 3, 10) = 3` into `segment_config`,
but splatting `segment_config` into `process_video_frames` passes the
keyword arguments `max_frames` and `similarity_threshold` that the callee
does not accept, so the call raises `TypeError` before any sampling; the
segment falls back with the error flag set and zero images instead of
succeeding with 3 frames.  Moreover the sampler itself caps frames with the
global `max_frames_per_segment = 50`, so a 20-second window would yield 20
frames, not the budgeted 3, even if the call were reachable. -/
theorem segment_budget_type_error (body : Except Unit VisualProcResult)
    (t s : String) (n : ℕ) :
    segment_max_frames (20 - 0) = 3 ∧
    concurrent_call_kwargs.all
      (fun k => process_video_frames_param_names.contains k) = false ∧
    python_kw_call process_video_frames_param_names concurrent_call_kwargs body =
      .error () ∧
    (process_single_segment_visual_run ⟨0, 20, t, s⟩ n body).error = true ∧
    (process_single_segment_visual_run ⟨0, 20, t, s⟩ n body).image_count = 0 ∧
    (process_single_segment_visual_run ⟨0, 20, t, s⟩ n body).key_images = [] ∧
    (extract_frames_from_video ⟨30, 1800, fun _ => true⟩ 0 (some 20) 50).length
      = 20 := by
  have hbudget : segment_max_frames (20 - 0) = 3 := by
    rw [segment_max_frames, ratPyInt]
    norm_num
  have hkw : concurrent_call_kwargs.all
      (fun k => process_video_frames_param_names.contains k) = false := by
    rfl
  have hcall : python_kw_call process_video_frames_param_names
      concurrent_call_kwargs body = .error () := by
    rw [python_kw_call, hkw]
    rfl
  have hrun : process_single_segment_visual_run ⟨0, 20, t, s⟩ n body =
      create_fallback_visual_result ⟨0, 20, t, s⟩ (some n) := by
    rw [process_single_segment_visual_run, hcall]
    rfl
  refine ⟨hbudget, hkw, hcall, by rw [hrun]; rfl, by rw [hrun]; rfl,
    by rw [hrun]; rfl, ?_⟩
  have hmf : uniform_max_frames ⟨30, 1800, fun _ => true⟩ 0 (some 20) 50 = 20 := by
    simp only [uniform_max_frames, actual_duration, video_duration]
    norm_num [ratPyInt]
  rw [extract_frames_length_all_reads _ _ _ _ (fun k => rfl), hmf]
  rfl

/-! ### Claim C8: frame sampler determinism and timestamp arithmetic -/

/-- C8: the Frame Sampler is deterministic in its timestamps — two calls with
identical `(video, start_time, duration, max_frames)` return identical lists,
and every returned timestamp is
`start_time + index * (clamped_duration / frame_count)`, pure arithmetic on
the requested parameters and the video's clamped length. -/
theorem frame_sampler_deterministic (v v' : Video) (s s' : ℚ) (d d' : Option ℚ)
    (c c' : ℕ) (hv : v = v') (hs : s = s') (hd : d = d') (hc : c = c') :
    extract_frames_from_video v s d c = extract_frames_from_video v' s' d' c' ∧
    ∀ fi ∈ extract_frames_from_video v s d c,
      fi.timestamp = s + (fi.index : ℚ) *
        (actual_duration v s d / ((uniform_max_frames v s d c : ℤ) : ℚ)) ∧
      fi.index < (uniform_max_frames v s d c).toNat := by
  subst hv hs hd hc
  refine ⟨rfl, ?_⟩
  intro fi hfi
  simp only [extract_frames_from_video] at hfi
  by_cases h : uniform_max_frames v s d c ≤ 0
  · rw [if_pos h] at hfi
    simp at hfi
  · rw [if_neg h] at hfi
    rw [List.mem_filterMap] at hfi
    obtain ⟨i, hir, hf⟩ := hfi
    split_ifs at hf with hr
    injection hf with hf
    subst hf
    exact ⟨rfl, List.mem_range.mp hir⟩

/-- C8 witness: the determinism statement instantiated at a concrete video
and window. -/
theorem frame_sampler_deterministic_witness :
    extract_frames_from_video ⟨30, 900, fun _ => true⟩ 0 (some 10) 50 =
      extract_frames_from_video ⟨30, 900, fun _ => true⟩ 0 (some 10) 50 ∧
    ∀ fi ∈ extract_frames_from_video ⟨30, 900, fun _ => true⟩ 0 (some 10) 50,
      fi.timestamp = 0 + (fi.index : ℚ) *
        (actual_duration ⟨30, 900, fun _ => true⟩ 0 (some 10) /
          ((uniform_max_frames ⟨30, 900, fun _ => true⟩ 0 (some 10) 50 : ℤ) : ℚ)) ∧
      fi.index < (uniform_max_frames ⟨30, 900, fun _ => true⟩ 0 (some 10) 50).toNat :=
  frame_sampler_deterministic ⟨30, 900, fun _ => true⟩ ⟨30, 900, fun _ => true⟩
    0 0 (some 10) (some 10) 50 50 rfl rfl rfl rfl

/-! ### Claim C10: uniform-mode frame count -/

theorem toNat_min_ratPyInt (c : ℕ) (ad : ℚ) :
    (min (c : ℤ) (ratPyInt ad)).toNat = (min (c : ℤ) ⌊ad⌋).toNat := by
  rw [ratPyInt]
  rcases le_or_lt 0 ad with h | h
  · rw [if_pos h]
  · rw [if_neg (not_le.mpr h)]
    have h1 : ⌈ad⌉ ≤ 0 := Int.ceil_le.mpr (by exact_mod_cast h.le)
    have h2 : ⌊ad⌋ ≤ 0 := Int.floor_nonpos h.le
    rw [Int.toNat_of_nonpos (le_trans (min_le_right _ _) h1),
      Int.toNat_of_nonpos (le_trans (min_le_right _ _) h2)]

/-- C10 (implicit): in uniform-sampling mode the attempted frame count is
`min(max_frames_per_segment, int(clamped_duration))`; a call whose clamped
duration lies strictly between 0 and 1 second therefore returns the empty
list despite the positive duration, a call never returns more frames than
the whole seconds of its clamped duration (nor than the configured cap), and
when every read succeeds the count is exactly
`min(cap, floor(clamped_duration))`. -/
theorem uniform_frame_count_floor (v : Video) (s : ℚ) (d : Option ℚ) (c : ℕ) :
    (0 < actual_duration v s d → actual_duration v s d < 1 →
      extract_frames_from_video v s d c = []) ∧
    (extract_frames_from_video v s d c).length ≤
      (min (c : ℤ) ⌊actual_duration v s d⌋).toNat ∧
    (extract_frames_from_video v s d c).length ≤ c ∧
    ((∀ k, v.readOk k = true) →
      (extract_frames_from_video v s d c).length =
        (min (c : ℤ) ⌊actual_duration v s d⌋).toNat) := by
  have hbound : (extract_frames_from_video v s d c).length ≤
      (uniform_max_frames v s d c).toNat := by
    simp only [extract_frames_from_video]
    by_cases h : uniform_max_frames v s d c ≤ 0
    · rw [if_pos h]
      simp
    · rw [if_neg h]
      calc (List.filterMap _ _).length ≤
            (List.range (uniform_max_frames v s d c).toNat).length :=
          List.length_filterMap_le _ _
        _ = _ := List.length_range _
  have hmin : (uniform_max_frames v s d c).toNat =
      (min (c : ℤ) ⌊actual_duration v s d⌋).toNat :=
    toNat_min_ratPyInt c (actual_duration v s d)
  refine ⟨?_, hmin ▸ hbound, ?_, ?_⟩
  · intro h0 h1
    have hfloor : ⌊actual_duration v s d⌋ = 0 := by
      rw [Int.floor_eq_zero_iff]
      exact ⟨h0.le, h1⟩
    have hzero : uniform_max_frames v s d c ≤ 0 := by
      rw [uniform_max_frames, ratPyInt, if_pos h0.le, hfloor]
      exact min_le_right _ _
    simp only [extract_frames_from_video]
    rw [if_pos hzero]
  · calc (extract_frames_from_video v s d c).length ≤
        (uniform_max_frames v s d c).toNat := hbound
      _ ≤ ((c : ℤ)).toNat := Int.toNat_le_toNat (min_le_left _ _)
      _ = c := Int.toNat_natCast c
  · intro hread
    rw [extract_frames_length_all_reads v s d c hread, hmin]

/-- C10 witness: a half-second window (15 frames at 30 fps) has clamped
duration 1/2 ∈ (0, 1) and yields no frames at all. -/
theorem uniform_frame_count_floor_witness :
    extract_frames_from_video ⟨30, 15, fun _ => true⟩ 0 none 50 = [] ∧
    (0 : ℚ) < actual_duration ⟨30, 15, fun _ => true⟩ 0 none ∧
    actual_duration ⟨30, 15, fun _ => true⟩ 0 none < 1 := by
  have had : actual_duration ⟨30, 15, fun _ => true⟩ 0 none = 1 / 2 := by
    simp only [actual_duration, video_duration]
    norm_num
  refine ⟨(uniform_frame_count_floor ⟨30, 15, fun _ => true⟩ 0 none 50).1
    (by rw [had]; norm_num) (by rw [had]; norm_num), by rw [had]; norm_num,
    by rw [had]; norm_num⟩

/-! ### Claim C7: the Representation Client
(`VisualProcessor.image_to_embedding`) -/

/-- Model of `image_to_embedding`: images are read one by one (an unreadable
image is dropped from both the batch and the recorded `valid_paths`); an
empty input or an all-unreadable batch short-circuits to `[]`; the backend
reply for the single batched request is an `Except` — any failure (network,
non-2xx from `raise_for_status`, missing `embeddings` key) is caught and
yields `[]`; on success the results are `zip(valid_paths, embeddings)`. -/
def image_to_embedding (readImage : String → Option String)
    (backend : Except Unit (List (List ℚ))) (image_paths : List String) :
    List (String × List ℚ) :=
  if image_paths = [] then []
  else
    let base64_images := image_paths.filterMap readImage
    let valid_paths := image_paths.filter (fun p => (readImage p).isSome)
    if base64_images = [] then []
    else
      match backend with
      | .error _ => []
      | .ok embeddings => valid_paths.zip embeddings

theorem filterMap_eq_nil_iff_filter_isSome {α β : Type}
    (f : α → Option β) (l : List α) :
    l.filterMap f = [] ↔ l.filter (fun a => (f a).isSome) = [] := by
  rw [List.filterMap_eq_nil_iff, List.filter_eq_nil_iff]
  constructor
  · intro h a ha
    rw [h a ha]
    simp
  · intro h a ha
    rcases hfa : f a with _ | b
    · rfl
    · exact absurd (by simp [hfa]) (h a ha)

/-- C7: the Representation Client returns `(path, embedding)` pairs 1:1 and
in input order for exactly the readable inputs — under the backend contract
that the reply carries one embedding per image sent — and returns `[]`
without raising on a whole-batch backend failure. -/
theorem representation_client_contract (readImage : String → Option String)
    (image_paths : List String) (embeddings : List (List ℚ))
    (hlen : embeddings.length =
      (image_paths.filter (fun p => (readImage p).isSome)).length) :
    (image_to_embedding readImage (.ok embeddings) image_paths).map Prod.fst =
      image_paths.filter (fun p => (readImage p).isSome) ∧
    (image_to_embedding readImage (.ok embeddings) image_paths).map Prod.snd =
      embeddings ∧
    (∀ e : Unit, image_to_embedding readImage (.error e) image_paths = []) := by
  have herr : ∀ e : Unit, image_to_embedding readImage (.error e) image_paths = [] := by
    intro e
    rw [image_to_embedding]
    by_cases h0 : image_paths = []
    · rw [if_pos h0]
    · rw [if_neg h0]
      by_cases h1 : image_paths.filterMap readImage = []
      · simp only [if_pos h1]
      · simp only [if_neg h1]
  refine ⟨?_, ?_, herr⟩ <;> rw [image_to_embedding]
  · by_cases h0 : image_paths = []
    · rw [if_pos h0, h0]
      rfl
    · rw [if_neg h0]
      by_cases h1 : image_paths.filterMap readImage = []
      · rw [if_pos h1]
        rw [filterMap_eq_nil_iff_filter_isSome] at h1
        rw [h1]
        rfl
      · rw [if_neg h1]
        exact List.map_fst_zip _ _ (le_of_eq hlen.symm)
  · by_cases h0 : image_paths = []
    · rw [if_pos h0]
      rw [h0] at hlen
      simp only [List.filter_nil, List.length_nil] at hlen
      exact (List.length_eq_zero.mp hlen).symm
    · rw [if_neg h0]
      by_cases h1 : image_paths.filterMap readImage = []
      · rw [if_pos h1]
        rw [filterMap_eq_nil_iff_filter_isSome] at h1
        rw [h1] at hlen
        simp only [List.length_nil] at hlen
        exact (List.length_eq_zero.mp hlen).symm
      · rw [if_neg h1]
        exact List.map_snd_zip _ _ (le_of_eq hlen)

/-- C7 witness: one unreadable input is dropped; the two readable paths pair
1:1, in order, with the two returned embeddings; the error reply yields
`[]`. -/
theorem representation_client_contract_witness :
    (image_to_embedding (fun p => if p = "bad" then none else some p)
        (.ok [[1], [2]]) ["x", "bad", "y"]).map Prod.fst = ["x", "y"] ∧
    (image_to_embedding (fun p => if p = "bad" then none else some p)
        (.ok [[1], [2]]) ["x", "bad", "y"]).map Prod.snd = [[1], [2]] ∧
    (∀ e : Unit, image_to_embedding (fun p => if p = "bad" then none else some p)
        (.error e) ["x", "bad", "y"] = []) := by
  have h := representation_client_contract
    (fun p => if p = "bad" then none else some p) ["x", "bad", "y"] [[1], [2]]
    (by rfl)
  exact ⟨by rw [h.1]; rfl, h.2.1, h.2.2⟩

end MediaScribe
